import Mathlib

/-!
Shallow embedding of the wildfire terrain-grid engine of the `spellfire` game
(`src/wildfire/map.rs`, `src/wildfire/mod.rs`, `src/wildfire/wind.rs`,
`src/screens/gameplay/building/water_golem.rs`).

Modelling conventions:
* `usize` grid sizes become `Nat`; `i32` cell coordinates become `Int`.
  The Rust cast `self.size_x as i32` is modelled exactly by `i32cast`
  (truncation to 32 bits, two's complement reinterpretation).
* `f32` quantities (moisture, wind angles) are modelled as `ℚ`; the float
  literals `0.01`, `0.2`, `17.5`, ... are taken at their decimal values.
* Fallible operations (Rust slice indexing, which panics when out of range)
  return `Except Unit _`, with `Except.error ()` standing for a panic.
* The PRNG draws made by `GameMap::update` (`rng.gen_bool(BURN_DECAY_RATE)`,
  the `FIRE_SPREAD_CHANCE` draw, and the composite
  `rng.gen_bool(burn_chance * rng_factor)` ignition gate) are modelled by an
  oracle `RngOracle` giving the Boolean outcome of each draw per cell and
  neighbour index.  All theorems about `update` quantify over the oracle,
  i.e. hold for every outcome of the random draws.
-/

/-- `TerrainType` from `src/wildfire/mod.rs` (the variant set matched
exhaustively by `GameMap::update`).  `Grassland` carries the
`#[default]` attribute in the source. -/
inductive TerrainType where
  | Dirt
  | Grassland
  | Tree
  | Stone
  | Fire
  | Smoldering
deriving DecidableEq

instance : Inhabited TerrainType := ⟨.Grassland⟩

/-- `TerrainCellState` from `src/wildfire/mod.rs` / `src/wildfire/map.rs`:
terrain type, local wind vector, moisture, fuel load, and the dirty flag used
for incremental redrawing.  The derived `Default` gives `Grassland`, zero
wind, zero moisture, zero fuel and a clean flag. -/
structure TerrainCellState where
  terrain : TerrainType := .Grassland
  wind : ℚ × ℚ := (0, 0)
  moisture : ℚ := 0
  fuel_load : Nat := 0
  dirty : Bool := false
deriving DecidableEq

instance : Inhabited TerrainCellState := ⟨{}⟩

/-- The grid storage `Vec<Vec<TerrainCellState>>`. -/
abbrev Grid := List (List TerrainCellState)

/-- `GameMap` from `src/wildfire/map.rs`. -/
structure GameMap where
  size_x : Nat
  size_y : Nat
  sprite_size : ℚ
  data : Grid
deriving DecidableEq

/-- The Rust cast `usize as i32`: truncate to the low 32 bits and
reinterpret as two's complement. -/
def i32cast (n : Nat) : Int :=
  if n % 2 ^ 32 < 2 ^ 31 then ((n % 2 ^ 32 : Nat) : Int)
  else ((n % 2 ^ 32 : Nat) : Int) - 2 ^ 32

theorem i32cast_le (n : Nat) : i32cast n ≤ (n : Int) := by
  unfold i32cast
  split <;> omega

theorem i32cast_of_lt {n : Nat} (h : n < 2 ^ 31) : i32cast n = (n : Int) := by
  unfold i32cast
  split <;> omega

/-- Well-formedness of the grid storage, as established by `GameMap::new`:
`data` holds `size_y` rows of `size_x` cells each. -/
def GameMap.WF (m : GameMap) : Prop :=
  m.data.length = m.size_y ∧ ∀ row ∈ m.data, row.length = m.size_x

instance (m : GameMap) : Decidable m.WF := by
  unfold GameMap.WF
  infer_instance

/-- The coordinate `c` lies on the grid: `0 ≤ c.x < size_x` and
`0 ≤ c.y < size_y` (the claim-level notion of an in-bounds coordinate). -/
def GameMap.inBounds (m : GameMap) (c : Int × Int) : Prop :=
  0 ≤ c.1 ∧ c.1 < (m.size_x : Int) ∧ 0 ≤ c.2 ∧ c.2 < (m.size_y : Int)

instance (m : GameMap) (c : Int × Int) : Decidable (m.inBounds c) := by
  unfold GameMap.inBounds
  infer_instance

/-- `GameMap::is_valid_coords` (map.rs:272-282): the Rust comparison
`coords.x as usize >= self.size_x` is evaluated only after `coords.x < 0`
has been ruled out by short-circuiting, so the `as usize` cast is `Int.toNat`. -/
def GameMap.is_valid_coords (m : GameMap) (c : Int × Int) : Bool :=
  !(decide (c.1 < 0) || decide (m.size_x ≤ c.1.toNat) ||
    decide (c.2 < 0) || decide (m.size_y ≤ c.2.toNat))

/-- `GameMap::get` (map.rs:285-291).  The bounds check compares against
`self.size_x as i32` / `self.size_y as i32`; after it passes, the source
indexes `self.data[loc.y as usize][loc.x as usize]`, which panics
(`Except.error ()`) if either index is out of range of the vectors. -/
def GameMap.get (m : GameMap) (loc : Int × Int) : Except Unit (Option TerrainCellState) :=
  if loc.1 < 0 ∨ i32cast m.size_x ≤ loc.1 ∨ loc.2 < 0 ∨ i32cast m.size_y ≤ loc.2 then
    Except.ok none
  else
    match m.data[loc.2.toNat]?.bind fun row => row[loc.1.toNat]? with
    | none => Except.error ()
    | some cell => Except.ok (some cell)

/-- `GameMap::get_mut` (map.rs:294-300): same bounds check and indexing as
`get`, returning a mutable reference in the source. -/
def GameMap.get_mut (m : GameMap) (loc : Int × Int) : Except Unit (Option TerrainCellState) :=
  if loc.1 < 0 ∨ i32cast m.size_x ≤ loc.1 ∨ loc.2 < 0 ∨ i32cast m.size_y ≤ loc.2 then
    Except.ok none
  else
    match m.data[loc.2.toNat]?.bind fun row => row[loc.1.toNat]? with
    | none => Except.error ()
    | some cell => Except.ok (some cell)

/-- `GameMap::is_on_fire` (map.rs:263-269): `get` then match on `Fire`. -/
def GameMap.is_on_fire (m : GameMap) (loc : Int × Int) : Except Unit Bool :=
  match m.get loc with
  | Except.error e => Except.error e
  | Except.ok (some cell) => Except.ok (cell.terrain == .Fire)
  | Except.ok none => Except.ok false

theorem get_mut_eq_get (m : GameMap) (c : Int × Int) : m.get_mut c = m.get c := rfl

/-- Under well-formedness, when the bounds check of `get` passes the nested
vector lookup succeeds. -/
theorem get_ok_some_of_check (m : GameMap) (hwf : m.WF) (c : Int × Int)
    (h : ¬(c.1 < 0 ∨ i32cast m.size_x ≤ c.1 ∨ c.2 < 0 ∨ i32cast m.size_y ≤ c.2)) :
    ∃ cell, m.get c = Except.ok (some cell) := by
  push_neg at h
  obtain ⟨h1, h2, h3, h4⟩ := h
  have hylen : c.2.toNat < m.data.length := by
    have := i32cast_le m.size_y
    have := hwf.1
    omega
  obtain ⟨row, hrow⟩ : ∃ row, m.data[c.2.toNat]? = some row :=
    ⟨_, List.getElem?_eq_getElem hylen⟩
  have hmem : row ∈ m.data := List.getElem?_mem hrow
  have hrowlen : row.length = m.size_x := hwf.2 _ hmem
  have hxlen : c.1.toNat < row.length := by
    have := i32cast_le m.size_x
    omega
  obtain ⟨cell, hcell⟩ : ∃ cell, row[c.1.toNat]? = some cell :=
    ⟨_, List.getElem?_eq_getElem hxlen⟩
  refine ⟨cell, ?_⟩
  unfold GameMap.get
  rw [if_neg (by push_neg; exact ⟨h1, h2, h3, h4⟩), hrow]
  simp [hcell]

/-- C2: for every well-formed `GameMap` and every coordinate pair, including
coordinates with negative components or components at least `size_x`/`size_y`,
`GameMap::get` and `GameMap::get_mut` return `None` and `GameMap::is_on_fire`
returns `false`, and none of them panics (no out-of-range indexing is
reachable). -/
theorem get_is_on_fire_safe (m : GameMap) (hwf : m.WF) (c : Int × Int) :
    (¬ m.inBounds c →
      m.get c = Except.ok none ∧ m.get_mut c = Except.ok none ∧
      m.is_on_fire c = Except.ok false) ∧
    m.get c ≠ Except.error () ∧ m.get_mut c ≠ Except.error () ∧
    m.is_on_fire c ≠ Except.error () := by
  by_cases hg : (c.1 < 0 ∨ i32cast m.size_x ≤ c.1 ∨ c.2 < 0 ∨ i32cast m.size_y ≤ c.2)
  · have hget : m.get c = Except.ok none := by
      unfold GameMap.get
      rw [if_pos hg]
    have hfire : m.is_on_fire c = Except.ok false := by
      unfold GameMap.is_on_fire
      rw [hget]
    refine ⟨fun _ => ⟨hget, by rw [get_mut_eq_get, hget], hfire⟩, ?_, ?_, ?_⟩
    · rw [hget]; exact fun h => by cases h
    · rw [get_mut_eq_get, hget]; exact fun h => by cases h
    · rw [hfire]; exact fun h => by cases h
  · obtain ⟨cell, hget⟩ := get_ok_some_of_check m hwf c hg
    have hib : m.inBounds c := by
      push_neg at hg
      obtain ⟨h1, h2, h3, h4⟩ := hg
      have := i32cast_le m.size_x
      have := i32cast_le m.size_y
      exact ⟨by omega, by omega, by omega, by omega⟩
    have hfire : m.is_on_fire c = Except.ok (cell.terrain == .Fire) := by
      unfold GameMap.is_on_fire
      rw [hget]
    refine ⟨fun hnb => absurd hib hnb, ?_, ?_, ?_⟩
    · rw [hget]; exact fun h => by cases h
    · rw [get_mut_eq_get, hget]; exact fun h => by cases h
    · rw [hfire]; exact fun h => by cases h

/-- Concrete 1×1 well-formed map used by witnesses. -/
def mapW : GameMap :=
  { size_x := 1, size_y := 1, sprite_size := 1,
    data := [[{ terrain := .Dirt }]] }

/-- Witness for C2 at the out-of-range coordinate `(-1, 2)` of a concrete map. -/
theorem get_is_on_fire_safe_witness :
    mapW.WF ∧
    ((¬ mapW.inBounds (-1, 2) →
      mapW.get (-1, 2) = Except.ok none ∧ mapW.get_mut (-1, 2) = Except.ok none ∧
      mapW.is_on_fire (-1, 2) = Except.ok false) ∧
    mapW.get (-1, 2) ≠ Except.error () ∧ mapW.get_mut (-1, 2) ≠ Except.error () ∧
    mapW.is_on_fire (-1, 2) ≠ Except.error ()) :=
  ⟨by decide, get_is_on_fire_safe mapW (by decide) (-1, 2)⟩

/-- A well-formed map whose `size_x` exceeds `i32::MAX`: one row of `2³¹`
default cells.  Used to refute the original C10 quantification over every
`GameMap`. -/
def mapBig : GameMap :=
  { size_x := 2 ^ 31, size_y := 1, sprite_size := 1,
    data := [List.replicate (2 ^ 31) default] }

/-- C10 (counter-evidence for the original claim): on the well-formed
`mapBig` (size_x = 2³¹) the accessors disagree at `(0, 0)`:
`is_valid_coords` compares `coords.x as usize` with `size_x` and accepts,
while `get` compares against `size_x as i32`, which wraps to `-2³¹`, so the
bounds check fails and `get` returns `None` — the claimed equivalence is
false. -/
theorem accessors_disagree_beyond_i32 :
    mapBig.WF ∧
    mapBig.is_valid_coords (0, 0) = true ∧
    mapBig.get (0, 0) = Except.ok none ∧
    ¬ (mapBig.is_valid_coords (0, 0) = true ↔
        ∃ cell, mapBig.get (0, 0) = Except.ok (some cell)) := by
  have hwf : mapBig.WF := by
    constructor
    · rfl
    · intro row h
      simp only [mapBig, List.mem_singleton] at h
      subst h
      exact List.length_replicate ..
  have hvalid : mapBig.is_valid_coords (0, 0) = true := by decide
  have hget : mapBig.get (0, 0) = Except.ok none := by
    unfold GameMap.get
    rw [if_pos]
    right
    left
    decide
  refine ⟨hwf, hvalid, hget, ?_⟩
  intro hiff
  obtain ⟨cell, hc⟩ := hiff.mp hvalid
  rw [hget] at hc
  cases hc

/-- C10 (amended): for every well-formed `GameMap` whose `size_x` and
`size_y` are at most `i32::MAX` (`2³¹ - 1`, every size for which the
`usize as i32` casts in `get`/`get_mut` preserve the value) and every
coordinate `c` (including negative components), the three bounds-checked
accessors agree: `is_valid_coords c = true` iff `get c` returns `Some`, iff
`get_mut c` returns `Some`. -/
theorem accessors_agree (m : GameMap) (hwf : m.WF)
    (hsx : m.size_x < 2 ^ 31) (hsy : m.size_y < 2 ^ 31) (c : Int × Int) :
    (m.is_valid_coords c = true ↔ ∃ cell, m.get c = Except.ok (some cell)) ∧
    (m.is_valid_coords c = true ↔ ∃ cell, m.get_mut c = Except.ok (some cell)) := by
  have hvalid : m.is_valid_coords c = true ↔ m.inBounds c := by
    unfold GameMap.is_valid_coords GameMap.inBounds
    constructor
    · intro h
      simp only [Bool.not_eq_eq_eq_not, Bool.not_true, Bool.or_eq_false_iff,
        decide_eq_false_iff_not, not_lt, not_le] at h
      obtain ⟨⟨⟨h1, h2⟩, h3⟩, h4⟩ := h
      exact ⟨h1, by omega, h3, by omega⟩
    · intro ⟨h1, h2, h3, h4⟩
      simp only [Bool.not_eq_eq_eq_not, Bool.not_true, Bool.or_eq_false_iff,
        decide_eq_false_iff_not, not_lt, not_le]
      exact ⟨⟨⟨by omega, by omega⟩, by omega⟩, by omega⟩
  have hguard : ¬(c.1 < 0 ∨ i32cast m.size_x ≤ c.1 ∨ c.2 < 0 ∨ i32cast m.size_y ≤ c.2) ↔
      m.inBounds c := by
    rw [i32cast_of_lt hsx, i32cast_of_lt hsy]
    unfold GameMap.inBounds
    constructor
    · intro h
      push_neg at h
      exact ⟨h.1, h.2.1, h.2.2.1, h.2.2.2⟩
    · intro ⟨h1, h2, h3, h4⟩
      push_neg
      exact ⟨h1, h2, h3, h4⟩
  have hsome : (∃ cell, m.get c = Except.ok (some cell)) ↔ m.inBounds c := by
    constructor
    · intro ⟨cell, hcell⟩
      by_contra hnb
      have := (get_is_on_fire_safe m hwf c).1 hnb
      rw [this.1] at hcell
      cases hcell
    · intro hib
      exact get_ok_some_of_check m hwf c (hguard.mpr hib)
  refine ⟨hvalid.trans hsome.symm, ?_⟩
  rw [get_mut_eq_get]
  exact hvalid.trans hsome.symm

/-- Witness for C10 on a concrete map, at the in-bounds coordinate `(0, 0)`. -/
theorem accessors_agree_witness :
    mapW.WF ∧ mapW.size_x < 2 ^ 31 ∧ mapW.size_y < 2 ^ 31 ∧
    ((mapW.is_valid_coords (0, 0) = true ↔
        ∃ cell, mapW.get (0, 0) = Except.ok (some cell)) ∧
      (mapW.is_valid_coords (0, 0) = true ↔
        ∃ cell, mapW.get_mut (0, 0) = Except.ok (some cell))) :=
  ⟨by decide, by decide, by decide,
    accessors_agree mapW (by decide) (by decide) (by decide) (0, 0)⟩

/-- Read `self.data[y][x]` (total model; out-of-range reads give the default
cell — the update sweep only reads in-range indices). -/
def getCell (d : Grid) (y x : Nat) : TerrainCellState :=
  (d.getD y []).getD x default

/-- Write `self.data[y][x] = c` (no-op when out of range; the update sweep
only writes in-range indices). -/
def setCell (d : Grid) (y x : Nat) (c : TerrainCellState) : Grid :=
  d.set y ((d.getD y []).set x c)

theorem getCell_setCell_ne (d : Grid) (y x y' x' : Nat) (c : TerrainCellState)
    (h : (y, x) ≠ (y', x')) : getCell (setCell d y x c) y' x' = getCell d y' x' := by
  simp only [getCell, setCell, List.getD_eq_getElem?_getD]
  by_cases hy : y = y'
  · subst hy
    have hx : x ≠ x' := by
      intro hx
      exact h (by rw [hx])
    by_cases hylen : y < d.length
    · rw [List.getElem?_set_self hylen]
      simp only [Option.getD_some]
      rw [List.getElem?_set_ne hx]
    · have h1 : d[y]? = none := by
        rw [List.getElem?_eq_none_iff]
        omega
      rw [h1]
      have h2 : (d.set y (((none : Option (List TerrainCellState)).getD []).set x c))[y]? =
          none := by
        rw [List.getElem?_eq_none_iff]
        simp only [List.length_set]
        omega
      rw [h2]
  · rw [List.getElem?_set_ne hy]

theorem getCell_setCell_self (d : Grid) (y x : Nat) (c : TerrainCellState)
    (hy : y < d.length) (hx : x < (d.getD y []).length) :
    getCell (setCell d y x c) y x = c := by
  rw [List.getD_eq_getElem?_getD] at hx
  simp only [getCell, setCell, List.getD_eq_getElem?_getD]
  rw [List.getElem?_set_self hy]
  simp only [Option.getD_some]
  rw [List.getElem?_set_self hx]
  simp

theorem length_setCell (d : Grid) (y x : Nat) (c : TerrainCellState) :
    (setCell d y x c).length = d.length := by
  unfold setCell
  exact List.length_set ..

theorem rowLength_setCell (d : Grid) (y x : Nat) (c : TerrainCellState) (i : Nat) :
    ((setCell d y x c).getD i []).length = ((d.getD i []).length) := by
  simp only [setCell, List.getD_eq_getElem?_getD]
  by_cases hy : y = i
  · subst hy
    by_cases hylen : y < d.length
    · rw [List.getElem?_set_self hylen]
      simp [List.length_set]
    · have h1 : d[y]? = none := by
        rw [List.getElem?_eq_none_iff]; omega
      rw [h1]
      have h2 : (d.set y (((none : Option (List TerrainCellState)).getD []).set x c))[y]? =
          none := by
        rw [List.getElem?_eq_none_iff]
        simp only [List.length_set]; omega
      rw [h2]
  · rw [List.getElem?_set_ne hy]

/-- `NEIGHBOUR_COORDINATES` (map.rs:20-37), in source order:
Left, Top Left, Top, Top Right, Right, Bottom Right, Bottom, Bottom Left. -/
def NEIGHBOUR_COORDINATES : List (Int × Int) :=
  [(-1, 0), (-1, 1), (0, 1), (1, 1), (1, 0), (1, -1), (0, -1), (-1, -1)]

/-- `GameMap::neighbours` (map.rs:343-354): for each neighbour offset, yield
`Some (x+dx, y+dy)` unless the source's validity test
`x + coord.x <= 0 || y + coord.y <= 0 || coord.x + x >= sx || coord.y + y >= sy`
rejects it. -/
def neighbours (sx sy : Nat) (x y : Int) : List (Option (Int × Int)) :=
  NEIGHBOUR_COORDINATES.map fun c =>
    if x + c.1 ≤ 0 ∨ y + c.2 ≤ 0 ∨ i32cast sx ≤ c.1 + x ∨ i32cast sy ≤ c.2 + y then
      none
    else
      some (c.1 + x, c.2 + y)

/-- Boolean outcomes of the PRNG draws of `GameMap::update`, per cell `(y, x)`
and neighbour index: `decay` is the `gen_bool(BURN_DECAY_RATE)` draw of the
Fire branch, `spread` the `gen_bool(FIRE_SPREAD_CHANCE)` draw, and `burn` the
outcome of the final `gen_bool(burn_chance * rng_factor)` ignition gate
(whose probability combines burn rate, moisture, wind and the extra uniform
draw; only its Boolean outcome affects the state). -/
structure RngOracle where
  decay : Nat → Nat → Bool
  spread : Nat → Nat → Nat → Bool
  burn : Nat → Nat → Nat → Bool

/-- `MOISTURE_DECAY_RATE` (map.rs:360), `0.01`. -/
def MOISTURE_DECAY_RATE : ℚ := 1 / 100

/-- The moisture decay applied for each neighbouring fire cell
(map.rs:391-393): `(moisture - MOISTURE_DECAY_RATE).max(0.0)`. -/
def decayMoisture (q : ℚ) : ℚ := max (q - MOISTURE_DECAY_RATE) 0

/-- The neighbour loop of the Grassland/Tree branch of `GameMap::update`
(map.rs:381-423): iterate the enumerated neighbour list; for each in-bounds
neighbour currently on fire, decay the cell's moisture, and on a successful
spread draw followed by a successful ignition gate set the cell on fire and
break out of the loop. -/
def spreadScan (o : RngOracle) (d : Grid) (y x : Nat) :
    List (Nat × Option (Int × Int)) → TerrainCellState → TerrainCellState
  | [], cell => cell
  | (_, none) :: rest, cell => spreadScan o d y x rest cell
  | (idx, some n) :: rest, cell =>
    if (getCell d n.2.toNat n.1.toNat).terrain = .Fire then
      let cell1 := { cell with moisture := decayMoisture cell.moisture }
      if o.spread y x idx then
        if o.burn y x idx then
          { cell1 with terrain := .Fire, dirty := true }
        else
          spreadScan o d y x rest cell1
      else
        spreadScan o d y x rest cell1
    else
      spreadScan o d y x rest cell

/-- The body of `GameMap::update` for one cell `(y, x)` (map.rs:366-428):
match on the cell's terrain; Fire cells stochastically lose fuel and turn to
Smoldering at zero fuel; Grassland/Tree cells run the neighbour fire-spread
scan; Dirt, Stone and Smoldering cells are a no-op. -/
def updateCellAt (o : RngOracle) (sx sy : Nat) (d : Grid) (y x : Nat) : Grid :=
  let cell := getCell d y x
  match cell.terrain with
  | .Fire =>
    if o.decay y x then
      let cell1 := { cell with fuel_load := cell.fuel_load - 1 }
      if cell1.fuel_load = 0 then
        setCell d y x { cell1 with terrain := .Smoldering, dirty := true }
      else
        setCell d y x cell1
    else
      d
  | .Grassland | .Tree =>
    setCell d y x (spreadScan o d y x (neighbours sx sy (x : Int) (y : Int)).enum cell)
  | .Dirt | .Stone | .Smoldering => d

/-- Row-major sweep over a list of `(y, x)` index pairs, updating the grid in
place as the source's nested `for` loops do. -/
def sweep (o : RngOracle) (sx sy : Nat) (ps : List (Nat × Nat)) (d : Grid) : Grid :=
  ps.foldl (fun d p => updateCellAt o sx sy d p.1 p.2) d

/-- The row-major index order of the nested loops
`for y in 0..size_y { for x in 0..size_x { ... } }`. -/
def indexList (sy sx : Nat) : List (Nat × Nat) :=
  (List.range sy).flatMap fun y => (List.range sx).map fun x => (y, x)

/-- `GameMap::update` (map.rs:357-431).  The global wind argument only enters
the ignition probability, which is absorbed in `RngOracle.burn`. -/
def GameMap.update (o : RngOracle) (m : GameMap) : GameMap :=
  { m with data := sweep o m.size_x m.size_y (indexList m.size_y m.size_x) m.data }

/-- Iterated ticks of `GameMap::update`, one oracle per tick. -/
def GameMap.updates (os : List RngOracle) (m : GameMap) : GameMap :=
  os.foldl (fun m o => m.update o) m

/-- A cell step writes only its own index. -/
theorem getCell_updateCellAt_ne (o : RngOracle) (sx sy : Nat) (d : Grid)
    (y x y' x' : Nat) (h : (y, x) ≠ (y', x')) :
    getCell (updateCellAt o sx sy d y x) y' x' = getCell d y' x' := by
  unfold updateCellAt
  cases hterrain : (getCell d y x).terrain <;>
    simp only [hterrain] <;>
    first
      | rfl
      | (split
         · split
           · exact getCell_setCell_ne d y x y' x' _ h
           · exact getCell_setCell_ne d y x y' x' _ h
         · rfl)
      | exact getCell_setCell_ne d y x y' x' _ h

/-- A sweep that never visits `(y, x)` leaves the cell unchanged. -/
theorem getCell_sweep_not_mem (o : RngOracle) (sx sy : Nat) (ps : List (Nat × Nat))
    (d : Grid) (y x : Nat) (h : (y, x) ∉ ps) :
    getCell (sweep o sx sy ps d) y x = getCell d y x := by
  induction ps generalizing d with
  | nil => rfl
  | cons p rest ih =>
    have hne : p ≠ (y, x) := fun hp => h (hp ▸ List.mem_cons_self ..)
    have hrest : (y, x) ∉ rest := fun hr => h (List.mem_cons_of_mem _ hr)
    show getCell (sweep o sx sy rest (updateCellAt o sx sy d p.1 p.2)) y x = _
    rw [ih _ hrest, getCell_updateCellAt_ne o sx sy d p.1 p.2 y x]
    intro hc
    exact hne (by rw [← hc])

theorem length_updateCellAt (o : RngOracle) (sx sy : Nat) (d : Grid) (y x : Nat) :
    (updateCellAt o sx sy d y x).length = d.length := by
  unfold updateCellAt
  cases hterrain : (getCell d y x).terrain <;>
    simp only [hterrain] <;>
    first
      | rfl
      | (split
         · split
           · exact length_setCell ..
           · exact length_setCell ..
         · rfl)
      | exact length_setCell ..

theorem rowLength_updateCellAt (o : RngOracle) (sx sy : Nat) (d : Grid) (y x i : Nat) :
    ((updateCellAt o sx sy d y x).getD i []).length = ((d.getD i []).length) := by
  unfold updateCellAt
  cases hterrain : (getCell d y x).terrain <;>
    simp only [hterrain] <;>
    first
      | rfl
      | (split
         · split
           · exact rowLength_setCell ..
           · exact rowLength_setCell ..
         · rfl)
      | exact rowLength_setCell ..

theorem length_sweep (o : RngOracle) (sx sy : Nat) (ps : List (Nat × Nat)) (d : Grid) :
    (sweep o sx sy ps d).length = d.length := by
  induction ps generalizing d with
  | nil => rfl
  | cons p rest ih =>
    show (sweep o sx sy rest (updateCellAt o sx sy d p.1 p.2)).length = _
    rw [ih, length_updateCellAt]

theorem rowLength_sweep (o : RngOracle) (sx sy : Nat) (ps : List (Nat × Nat))
    (d : Grid) (i : Nat) :
    ((sweep o sx sy ps d).getD i []).length = ((d.getD i []).length) := by
  induction ps generalizing d with
  | nil => rfl
  | cons p rest ih =>
    show ((sweep o sx sy rest (updateCellAt o sx sy d p.1 p.2)).getD i []).length = _
    rw [ih, rowLength_updateCellAt]

/-- A step at any index leaves a Dirt, Stone or Smoldering cell unchanged. -/
theorem getCell_updateCellAt_inert (o : RngOracle) (sx sy : Nat) (d : Grid)
    (y x y' x' : Nat)
    (h : (getCell d y' x').terrain = .Dirt ∨ (getCell d y' x').terrain = .Stone ∨
      (getCell d y' x').terrain = .Smoldering) :
    getCell (updateCellAt o sx sy d y x) y' x' = getCell d y' x' := by
  by_cases heq : (y, x) = (y', x')
  · obtain ⟨rfl, rfl⟩ := Prod.mk.injEq .. ▸ heq
    unfold updateCellAt
    rcases h with h | h | h <;> simp only [h]
  · exact getCell_updateCellAt_ne o sx sy d y x y' x' heq

theorem getCell_sweep_inert (o : RngOracle) (sx sy : Nat) (ps : List (Nat × Nat))
    (d : Grid) (y x : Nat)
    (h : (getCell d y x).terrain = .Dirt ∨ (getCell d y x).terrain = .Stone ∨
      (getCell d y x).terrain = .Smoldering) :
    getCell (sweep o sx sy ps d) y x = getCell d y x := by
  induction ps generalizing d with
  | nil => rfl
  | cons p rest ih =>
    have hstep := getCell_updateCellAt_inert o sx sy d p.1 p.2 y x h
    show getCell (sweep o sx sy rest (updateCellAt o sx sy d p.1 p.2)) y x = _
    rw [ih _ (by rw [hstep]; exact h), hstep]

/-- C7: for every map state, every oracle sequence (i.e. every outcome of the
random draws over any number of `GameMap::update` calls) and every cell whose
terrain is Dirt, Stone or Smoldering, the cell's entire state — in particular
its terrain, fuel_load and moisture — is unchanged after the ticks. -/
theorem inert_cells_are_fixed_points (os : List RngOracle) (m : GameMap) (y x : Nat)
    (h : (getCell m.data y x).terrain = .Dirt ∨ (getCell m.data y x).terrain = .Stone ∨
      (getCell m.data y x).terrain = .Smoldering) :
    (getCell (m.updates os).data y x).terrain = (getCell m.data y x).terrain ∧
    (getCell (m.updates os).data y x).fuel_load = (getCell m.data y x).fuel_load ∧
    (getCell (m.updates os).data y x).moisture = (getCell m.data y x).moisture := by
  suffices hcell : getCell (m.updates os).data y x = getCell m.data y x by
    rw [hcell]
    exact ⟨rfl, rfl, rfl⟩
  induction os generalizing m with
  | nil => rfl
  | cons o rest ih =>
    show getCell ((m.update o).updates rest).data y x = _
    have hstep : getCell (m.update o).data y x = getCell m.data y x :=
      getCell_sweep_inert o m.size_x m.size_y _ m.data y x h
    rw [ih (m.update o) (by rw [hstep]; exact h), hstep]

/-- Concrete 2×2 map for the C7 witness: a Dirt cell at `(x, y) = (0, 0)`
right next to a burning cell. -/
def mapInert : GameMap :=
  { size_x := 2, size_y := 2, sprite_size := 1,
    data := [[{ terrain := .Dirt }, { terrain := .Fire, fuel_load := 3 }],
             [{ terrain := .Grassland, fuel_load := 2, moisture := 1/2 },
              { terrain := .Tree, fuel_load := 5, moisture := 1/4 }]] }

/-- An oracle whose draws all succeed. -/
def oracleT : RngOracle :=
  { decay := fun _ _ => true, spread := fun _ _ _ => true, burn := fun _ _ _ => true }

/-- Witness for C7: the Dirt cell of `mapInert` is unchanged over two ticks
with all random draws succeeding, despite the neighbouring fire. -/
theorem inert_cells_are_fixed_points_witness :
    ((getCell mapInert.data 0 0).terrain = .Dirt ∨
      (getCell mapInert.data 0 0).terrain = .Stone ∨
      (getCell mapInert.data 0 0).terrain = .Smoldering) ∧
    ((getCell (mapInert.updates [oracleT, oracleT]).data 0 0).terrain =
        (getCell mapInert.data 0 0).terrain ∧
      (getCell (mapInert.updates [oracleT, oracleT]).data 0 0).fuel_load =
        (getCell mapInert.data 0 0).fuel_load ∧
      (getCell (mapInert.updates [oracleT, oracleT]).data 0 0).moisture =
        (getCell mapInert.data 0 0).moisture) :=
  ⟨Or.inl (by decide),
    inert_cells_are_fixed_points [oracleT, oracleT] mapInert 0 0 (Or.inl (by decide))⟩

theorem indexList_mem (sy sx y x : Nat) : (y, x) ∈ indexList sy sx ↔ y < sy ∧ x < sx := by
  simp [indexList, List.mem_flatMap, List.mem_map, List.mem_range]

theorem indexList_nodup (sy sx : Nat) : (indexList sy sx).Nodup := by
  induction sy with
  | zero => simp [indexList]
  | succ n ih =>
    have hsplit : indexList (n + 1) sx =
        indexList n sx ++ (List.range sx).map fun x => (n, x) := by
      unfold indexList
      rw [List.range_succ]
      simp
    rw [hsplit, List.nodup_append]
    refine ⟨ih, ?_, ?_⟩
    · refine List.Nodup.map ?_ (List.nodup_range sx)
      intro a b hab
      simpa using hab
    · intro p hp hq
      obtain ⟨y', x'⟩ := p
      have h1 : y' < n := ((indexList_mem n sx y' x').mp hp).1
      have h2 : y' = n := by
        simp only [List.mem_map, List.mem_range] at hq
        obtain ⟨a, _, ha⟩ := hq
        exact (Prod.mk.injEq .. ▸ ha).1.symm
      omega

theorem exists_split_of_mem_nodup {α : Type} {l : List α} {a : α}
    (hmem : a ∈ l) (hnd : l.Nodup) :
    ∃ s t, l = s ++ a :: t ∧ a ∉ s ∧ a ∉ t := by
  obtain ⟨s, t, rfl⟩ := List.append_of_mem hmem
  rw [List.nodup_append] at hnd
  obtain ⟨h1, h2, h3⟩ := hnd
  refine ⟨s, t, rfl, ?_, (List.nodup_cons.mp h2).1⟩
  intro ha
  exact h3 ha (List.mem_cons_self ..)

/-- The Fire branch of the per-cell step (map.rs:369-379): on a successful
decay draw, decrement the fuel load by saturating subtraction, and if the
stored fuel load has hit zero turn the cell to Smoldering and mark it dirty. -/
theorem getCell_updateCellAt_fire (o : RngOracle) (sx sy : Nat) (d : Grid) (y x : Nat)
    (hy : y < d.length) (hx : x < (d.getD y []).length)
    (hf : (getCell d y x).terrain = .Fire) :
    getCell (updateCellAt o sx sy d y x) y x =
      (if o.decay y x then
        (if (getCell d y x).fuel_load - 1 = 0 then
          { getCell d y x with
            fuel_load := (getCell d y x).fuel_load - 1,
            terrain := .Smoldering,
            dirty := true }
        else
          { getCell d y x with fuel_load := (getCell d y x).fuel_load - 1 })
      else getCell d y x) := by
  unfold updateCellAt
  simp only [hf]
  by_cases hdecay : o.decay y x = true
  · simp only [hdecay, if_true]
    by_cases hzero : (getCell d y x).fuel_load - 1 = 0
    · simp only [hzero, if_true]
      exact getCell_setCell_self d y x _ hy hx
    · simp only [hzero, if_false]
      exact getCell_setCell_self d y x _ hy hx
  · simp only [Bool.not_eq_true] at hdecay
    simp only [hdecay]
    rfl

/-- C3: for every map state and every cell in state Fire, one call to
`GameMap::update` — for every outcome of the random draws — never increases
the cell's fuel_load; the decrement is the saturating `fuel_load - 1` (so the
fuel load never goes below zero); and the cell transitions to Smoldering
exactly when the stored fuel load reaches 0 after the decrement. -/
theorem fire_cell_one_update (o : RngOracle) (m : GameMap) (hwf : m.WF) (y x : Nat)
    (hy : y < m.size_y) (hx : x < m.size_x)
    (hfire : (getCell m.data y x).terrain = .Fire) :
    (getCell (m.update o).data y x).fuel_load ≤ (getCell m.data y x).fuel_load ∧
    (o.decay y x = false → getCell (m.update o).data y x = getCell m.data y x) ∧
    (o.decay y x = true →
      (getCell (m.update o).data y x).fuel_load = (getCell m.data y x).fuel_load - 1) ∧
    ((getCell (m.update o).data y x).terrain = .Smoldering ↔
      o.decay y x = true ∧ (getCell (m.update o).data y x).fuel_load = 0) := by
  have hylen : y < m.data.length := by
    rw [hwf.1]
    exact hy
  have hxlen : x < (m.data.getD y []).length := by
    rw [List.getD_eq_getElem?_getD, List.getElem?_eq_getElem hylen]
    simp only [Option.getD_some]
    rw [hwf.2 _ (List.getElem_mem hylen)]
    exact hx
  have hmem : (y, x) ∈ indexList m.size_y m.size_x := (indexList_mem ..).mpr ⟨hy, hx⟩
  obtain ⟨s, t, hsplit, hns, hnt⟩ :=
    exists_split_of_mem_nodup hmem (indexList_nodup m.size_y m.size_x)
  have hupd : (m.update o).data =
      sweep o m.size_x m.size_y t
        (updateCellAt o m.size_x m.size_y (sweep o m.size_x m.size_y s m.data) y x) := by
    show sweep o m.size_x m.size_y (indexList m.size_y m.size_x) m.data = _
    rw [hsplit]
    unfold sweep
    rw [List.foldl_append]
    rfl
  have hbefore : getCell (sweep o m.size_x m.size_y s m.data) y x = getCell m.data y x :=
    getCell_sweep_not_mem o m.size_x m.size_y s m.data y x hns
  have hylen' : y < (sweep o m.size_x m.size_y s m.data).length := by
    rw [length_sweep]
    exact hylen
  have hxlen' : x < ((sweep o m.size_x m.size_y s m.data).getD y []).length := by
    rw [rowLength_sweep]
    exact hxlen
  have hchar := getCell_updateCellAt_fire o m.size_x m.size_y
    (sweep o m.size_x m.size_y s m.data) y x hylen' hxlen' (by rw [hbefore]; exact hfire)
  rw [hbefore] at hchar
  have hval : getCell (m.update o).data y x =
      (if o.decay y x then
        (if (getCell m.data y x).fuel_load - 1 = 0 then
          { getCell m.data y x with
            fuel_load := (getCell m.data y x).fuel_load - 1,
            terrain := .Smoldering,
            dirty := true }
        else
          { getCell m.data y x with fuel_load := (getCell m.data y x).fuel_load - 1 })
      else getCell m.data y x) := by
    rw [hupd, getCell_sweep_not_mem o m.size_x m.size_y t _ y x hnt]
    exact hchar
  by_cases hdecay : o.decay y x = true
  · simp only [hdecay, if_true] at hval
    by_cases hzero : (getCell m.data y x).fuel_load - 1 = 0
    · simp only [hzero, if_true] at hval
      refine ⟨?_, ?_, ?_, ?_⟩
      · rw [hval]
        simp
      · intro h
        rw [h] at hdecay
        cases hdecay
      · intro _
        rw [hval]
        simpa using hzero.symm
      · rw [hval]
        simp [hdecay]
    · simp only [hzero, if_false] at hval
      refine ⟨?_, ?_, ?_, ?_⟩
      · rw [hval]
        simp
      · intro h
        rw [h] at hdecay
        cases hdecay
      · intro _
        rw [hval]
      · rw [hval]
        constructor
        · intro habs
          simp only at habs
          rw [hfire] at habs
          cases habs
        · intro ⟨_, habs⟩
          simp only at habs
          exact absurd habs hzero
  · simp only [Bool.not_eq_true] at hdecay
    simp only [hdecay, Bool.false_eq_true, if_false] at hval
    refine ⟨?_, ?_, ?_, ?_⟩
    · rw [hval]
    · intro _
      exact hval
    · intro h
      rw [h] at hdecay
      cases hdecay
    · rw [hval]
      constructor
      · intro habs
        rw [hfire] at habs
        cases habs
      · intro ⟨habs, _⟩
        rw [habs] at hdecay
        cases hdecay

/-- Concrete 1×1 map with a burning cell holding one unit of fuel. -/
def mapFire : GameMap :=
  { size_x := 1, size_y := 1, sprite_size := 1,
    data := [[{ terrain := .Fire, fuel_load := 1, moisture := 1/4 }]] }

/-- Witness for C3: on `mapFire` with a successful decay draw, the fuel load
drops from 1 to 0 and the cell turns to Smoldering. -/
theorem fire_cell_one_update_witness :
    mapFire.WF ∧ 0 < mapFire.size_y ∧ 0 < mapFire.size_x ∧
    (getCell mapFire.data 0 0).terrain = .Fire ∧
    ((getCell (mapFire.update oracleT).data 0 0).fuel_load ≤
        (getCell mapFire.data 0 0).fuel_load ∧
      (oracleT.decay 0 0 = false →
        getCell (mapFire.update oracleT).data 0 0 = getCell mapFire.data 0 0) ∧
      (oracleT.decay 0 0 = true →
        (getCell (mapFire.update oracleT).data 0 0).fuel_load =
          (getCell mapFire.data 0 0).fuel_load - 1) ∧
      ((getCell (mapFire.update oracleT).data 0 0).terrain = .Smoldering ↔
        oracleT.decay 0 0 = true ∧
          (getCell (mapFire.update oracleT).data 0 0).fuel_load = 0)) :=
  ⟨by decide, by decide, by decide, by decide,
    fire_cell_one_update oracleT mapFire (by decide) 0 0 (by decide) (by decide) (by decide)⟩

/-- C1 (counter-evidence): on a 3×3 map, the cell `(x, y) = (1, 1)` has the
in-bounds neighbour `(0, 1)` in column 0 (offset Left `(-1, 0)`, the first
entry of `NEIGHBOUR_COORDINATES`), yet `GameMap::neighbours` yields `None`
for it — the test `x + coord.x <= 0` rejects coordinate 0, so in-bounds
neighbours in row 0 or column 0 are never considered for fire spread,
contradicting both the claim and the doc comment of `neighbours` ("`None`
... if the cell coordinate of a neighbour is invalid (i.e. off the grid)"). -/
theorem neighbours_omit_row0_col0 :
    (neighbours 3 3 1 1).head? = some none ∧
    NEIGHBOUR_COORDINATES.head? = some (-1, 0) ∧
    (0 ≤ (0 : Int) ∧ (0 : Int) < ((3 : Nat) : Int) ∧
      0 ≤ (1 : Int) ∧ (1 : Int) < ((3 : Nat) : Int)) ∧
    neighbours 3 3 1 1 =
      [none, none, some (1, 2), some (2, 2), some (2, 1), none, none, none] := by
  decide

/-- The moisture gain applied by the water golem
(water_golem.rs:223-230): `(moisture + 0.2).clamp(0.0, 1.0)`. -/
def golemMoisten (q : ℚ) : ℚ := min (max (q + 2 / 10) 0) 1

/-- A moisture-modifying operation of the game: the fire-adjacency decay of
`GameMap::update`, or the water golem's moistening. -/
inductive MoistureOp where
  | decay
  | golem

/-- Apply one moisture operation. -/
def applyMoistureOp (q : ℚ) : MoistureOp → ℚ
  | .decay => decayMoisture q
  | .golem => golemMoisten q

theorem decayMoisture_mem_unit (q : ℚ) (h0 : 0 ≤ q) (h1 : q ≤ 1) :
    0 ≤ decayMoisture q ∧ decayMoisture q ≤ 1 := by
  unfold decayMoisture MOISTURE_DECAY_RATE
  constructor
  · exact le_max_right _ _
  · rw [max_le_iff]
    constructor
    · linarith
    · norm_num

theorem golemMoisten_mem_unit (q : ℚ) (h0 : 0 ≤ q) (h1 : q ≤ 1) :
    0 ≤ golemMoisten q ∧ golemMoisten q ≤ 1 := by
  unfold golemMoisten
  constructor
  · rw [le_min_iff]
    constructor
    · rw [le_max_iff]
      left
      linarith
    · norm_num
  · exact min_le_right _ _

/-- C6: starting from any moisture value in `[0, 1]`, any sequence of the two
moisture-modifying operations — the fire-adjacency decay of `GameMap::update`
(floored at 0) and the water golem's `+0.2` moistening (clamped to `[0, 1]`) —
keeps the moisture in `[0, 1]`. -/
theorem moisture_stays_in_unit_interval (q : ℚ) (h0 : 0 ≤ q) (h1 : q ≤ 1)
    (ops : List MoistureOp) :
    0 ≤ ops.foldl applyMoistureOp q ∧ ops.foldl applyMoistureOp q ≤ 1 := by
  induction ops generalizing q with
  | nil => exact ⟨h0, h1⟩
  | cons op rest ih =>
    show 0 ≤ rest.foldl applyMoistureOp (applyMoistureOp q op) ∧ _
    cases op with
    | decay =>
      obtain ⟨ha, hb⟩ := decayMoisture_mem_unit q h0 h1
      exact ih _ ha hb
    | golem =>
      obtain ⟨ha, hb⟩ := golemMoisten_mem_unit q h0 h1
      exact ih _ ha hb

/-- Witness for C6 at moisture `1/2` and a concrete operation sequence. -/
theorem moisture_stays_in_unit_interval_witness :
    (0 : ℚ) ≤ 1 / 2 ∧ (1 / 2 : ℚ) ≤ 1 ∧
    (0 ≤ [MoistureOp.decay, MoistureOp.golem, MoistureOp.golem, MoistureOp.golem,
        MoistureOp.golem, MoistureOp.decay].foldl applyMoistureOp (1 / 2) ∧
      [MoistureOp.decay, MoistureOp.golem, MoistureOp.golem, MoistureOp.golem,
        MoistureOp.golem, MoistureOp.decay].foldl applyMoistureOp (1 / 2) ≤ 1) :=
  ⟨by norm_num, by norm_num,
    moisture_stays_in_unit_interval (1 / 2) (by norm_num) (by norm_num) _⟩

/-- `WindDirection` (wind.rs:20-25). -/
structure WindDirection where
  angle : ℚ
  strength : ℚ
  variance : ℚ
  target : ℚ

/-- `WIND_CHANGE_SPEED` (wind.rs:93), degrees per second. -/
def WIND_CHANGE_SPEED : ℚ := 5

/-- `raw_delta` of `wandery_wind` (wind.rs:101). -/
def rawDelta (w : WindDirection) : ℚ := w.target - w.angle

/-- `positive_delta` of `wandery_wind` (wind.rs:102-106). -/
def positiveDelta (w : WindDirection) : ℚ :=
  if rawDelta w < 0 then rawDelta w + 360 else rawDelta w

/-- `negative_delta` of `wandery_wind` (wind.rs:107-111): note the source
computes `360.0 + raw_delta` when `raw_delta > 0`. -/
def negativeDelta (w : WindDirection) : ℚ :=
  if rawDelta w > 0 then 360 + rawDelta w else |rawDelta w|

/-- `direction_sign` of `wandery_wind` (wind.rs:113-117). -/
def directionSign (w : WindDirection) : ℚ :=
  if positiveDelta w > negativeDelta w then -1 else 1

/-- The rotation step of `wandery_wind` (wind.rs:120-121):
`angle += (dt * WIND_CHANGE_SPEED) * direction_sign`. -/
def windAngleStep (dt : ℚ) (w : WindDirection) : ℚ :=
  w.angle + dt * WIND_CHANGE_SPEED * directionSign w

/-- Normalize an angle into `[0, 360)` (used to state the claim's notion of
rotational path lengths). -/
def wrap360 (q : ℚ) : ℚ := q - 360 * ⌊q / 360⌋

/-- The claim's angular distance between two angles: the shorter of the two
rotational paths. -/
def angularDistance (a b : ℚ) : ℚ := min (wrap360 (a - b)) (wrap360 (b - a))

/-- C5 (counter-evidence): at angle 0 with target 350, `wandery_wind` picks
`direction_sign = 1` (counterclockwise) although the counterclockwise path is
350° and the clockwise path only 10°; a tick of `0.1 s` therefore moves the
angle to 0.5, increasing the angular distance to the target from 10 to 10.5 —
the rotation is not along the shorter path.  (Cause: wind.rs:107-111 computes
`360.0 + raw_delta` for positive `raw_delta` where the faster-direction
comparison needs `360.0 - raw_delta`.) -/
theorem wandery_wind_takes_longer_path :
    directionSign ⟨0, 10, 90, 350⟩ = 1 ∧
    wrap360 ((350 : ℚ) - 0) = 350 ∧
    wrap360 ((0 : ℚ) - 350) = 10 ∧
    windAngleStep (1 / 10) ⟨0, 10, 90, 350⟩ = 1 / 2 ∧
    angularDistance 0 350 = 10 ∧
    angularDistance (windAngleStep (1 / 10) ⟨0, 10, 90, 350⟩) 350 = 21 / 2 ∧
    angularDistance 0 350 <
      angularDistance (windAngleStep (1 / 10) ⟨0, 10, 90, 350⟩) 350 := by
  have hf1 : ⌊(350 : ℚ) / 360⌋ = 0 := by
    rw [Int.floor_eq_iff] <;> norm_num
  have hf2 : ⌊(-350 : ℚ) / 360⌋ = -1 := by
    rw [Int.floor_eq_iff] <;> norm_num
  have hf3 : ⌊(-(699 : ℚ) / 2) / 360⌋ = -1 := by
    rw [Int.floor_eq_iff] <;> norm_num
  have hf4 : ⌊((699 : ℚ) / 2) / 360⌋ = 0 := by
    rw [Int.floor_eq_iff] <;> norm_num
  have hsign : directionSign ⟨0, 10, 90, 350⟩ = 1 := by
    unfold directionSign positiveDelta negativeDelta rawDelta
    norm_num
  have hstep : windAngleStep (1 / 10) ⟨0, 10, 90, 350⟩ = 1 / 2 := by
    unfold windAngleStep WIND_CHANGE_SPEED
    rw [hsign]
    norm_num
  refine ⟨hsign, ?_, ?_, hstep, ?_, ?_, ?_⟩
  · unfold wrap360
    norm_num [hf1]
  · unfold wrap360
    norm_num [hf2]
  · unfold angularDistance wrap360
    norm_num [hf1, hf2]
  · rw [hstep]
    unfold angularDistance wrap360
    norm_num [hf3, hf4]
  · rw [hstep]
    unfold angularDistance wrap360
    norm_num [hf1, hf2, hf3, hf4]

/-- `NoiseMap` (map.rs:137-158): wraps `FastNoiseLite::with_seed(seed)`. -/
structure NoiseMap where
  seed : Int

/-- `NoiseMap::new` (map.rs:154-158). -/
def NoiseMap.new (seed : Int) : NoiseMap := { seed := seed }

/-- `remap(-0.5, 0.5, 0.0, 1.0)` followed by `clamp(0.0, 1.0)`
(map.rs:161-164): the remap is the affine map `v ↦ v + 0.5`. -/
def remapClamp (v : ℚ) : ℚ := min (max (v + 1 / 2) 0) 1

/-- `NoiseMap::noise` (map.rs:160-164), parametrised by the underlying
deterministic noise primitive `g` standing for
`FastNoiseLite::get_noise_2d` (a pure function of seed and coordinates;
its floating-point internals are not re-modelled). -/
def NoiseMap.noiseAt (g : Int → ℚ → ℚ → ℚ) (nm : NoiseMap) (x y : ℚ) : ℚ :=
  remapClamp (g nm.seed x y)

/-- `NoiseMap::moisture` (map.rs:168-172): `noise` at an offset of 17.5. -/
def NoiseMap.moisture (g : Int → ℚ → ℚ → ℚ) (nm : NoiseMap) (x y : ℚ) : ℚ :=
  nm.noiseAt g (x + 35 / 2) (y + 35 / 2)

/-- `NOISE_SCALE` (map.rs:59). -/
def NOISE_SCALE : ℚ := 1 / 2

/-- `NOISE_REDIST_FACTOR` (map.rs:58). -/
def NOISE_REDIST_FACTOR : ℚ := 146 / 100

/-- The Rust saturating cast `f32 as u8` for the clamped fuel-load values:
truncate toward zero (floor, as the inputs are positive) and saturate. -/
def floatToU8 (q : ℚ) : Nat := min (⌊q⌋.toNat) 255

/-- Rust `f32::clamp(lo, hi)`. -/
def clampQ (v lo hi : ℚ) : ℚ := min (max v lo) hi

/-- `NoiseMap::sample` (map.rs:175-202), parametrised by the noise primitive
`g` and by `p` standing for `f32::powf` (applied to the redistribution
exponent `NOISE_REDIST_FACTOR`). -/
def NoiseMap.sample (g : Int → ℚ → ℚ → ℚ) (p : ℚ → ℚ → ℚ) (nm : NoiseMap)
    (x y : Nat) : TerrainType × Nat :=
  let xq : ℚ := x
  let yq : ℚ := y
  let noise_base := nm.noiseAt g (NOISE_SCALE * xq) (NOISE_SCALE * yq)
  let noise1 := 1 * noise_base
    + (1 / 2) * nm.noiseAt g (NOISE_SCALE * 2 * xq) (NOISE_SCALE * 2 * yq)
    + (1 / 4) * nm.noiseAt g (NOISE_SCALE * 4 * xq) (NOISE_SCALE * 4 * yq)
  let noise := p (noise1 / (1 + 1 / 2 + 1 / 4)) NOISE_REDIST_FACTOR
  if noise < 3 / 100 then
    (.Dirt, 0)
  else if noise < 1 / 2 then
    (.Grassland, floatToU8 (clampQ (12 * (noise - 3 / 100) / (1 / 2 - 3 / 100)) 1 12))
  else if noise < 3 / 4 then
    (.Tree, floatToU8 (clampQ (24 * (noise - 1 / 2) / (3 / 4 - 1 / 2)) 1 24))
  else
    (.Stone, floatToU8 (clampQ (10 * (noise - 3 / 4) / (1 - 3 / 4)) 1 10))

/-- The cell produced for position `(x, y)` by the fill loop of
`GameMap::new` (map.rs:223-232): default cell, then terrain and fuel from
`sample`, then moisture from `moisture` for Grassland/Tree only. -/
def sampledCell (sample : Nat → Nat → TerrainType × Nat) (moistureF : Nat → Nat → ℚ)
    (x y : Nat) : TerrainCellState :=
  { (default : TerrainCellState) with
    terrain := (sample x y).1,
    fuel_load := (sample x y).2,
    moisture :=
      match (sample x y).1 with
      | .Grassland | .Tree => moistureF x y
      | _ => (default : TerrainCellState).moisture }

/-- `GameMap::new` (map.rs:217-242), parametrised by the sampling functions
of the `NoiseMap` built from the seed.  `data` is allocated as `size_y` rows
of `size_x` default cells; the outer fill loop visits every row
(`.take(size_y)` over `size_y` rows), while the inner fill loop iterates
`row.iter_mut().enumerate().take(size_y)` — the source's `take` bound on the
x-iteration is `size_y` — so only cells with `x < size_y` are written, the
rest keep the default cell state. -/
def GameMap.new (sample : Nat → Nat → TerrainType × Nat)
    (moistureF : Nat → Nat → ℚ) (sprite_size : ℚ) (size_x size_y : Nat) : GameMap :=
  { size_x := size_x, size_y := size_y, sprite_size := sprite_size,
    data := (List.range size_y).map fun y =>
      (List.range size_x).map fun x =>
        if x < size_y then sampledCell sample moistureF x y else default }

/-- A concrete sampler assigning Dirt with fuel 0 everywhere. -/
def sampleDirt : Nat → Nat → TerrainType × Nat := fun _ _ => (.Dirt, 0)

/-- A concrete moisture function. -/
def moistureZero : Nat → Nat → ℚ := fun _ _ => 0

/-- C4 (counter-evidence): with `size_x = 2, size_y = 1` and a sampler that
returns Dirt everywhere, `GameMap::new` leaves cell `(x, y) = (1, 0)` at the
default Grassland state instead of the sampled Dirt — the inner fill loop
stops after `size_y` cells of each row — while cell `(0, 0)` is correctly
sampled.  So not every in-bounds cell holds the sampled terrain. -/
theorem new_leaves_cells_unsampled :
    (getCell (GameMap.new sampleDirt moistureZero 1 2 1).data 0 1).terrain =
      .Grassland ∧
    (sampleDirt 1 0).1 = .Dirt ∧
    (getCell (GameMap.new sampleDirt moistureZero 1 2 1).data 0 1).terrain ≠
      (sampleDirt 1 0).1 ∧
    (getCell (GameMap.new sampleDirt moistureZero 1 2 1).data 0 0).terrain =
      (sampleDirt 0 0).1 ∧
    (GameMap.new sampleDirt moistureZero 1 2 1).size_x = 2 ∧
    (GameMap.new sampleDirt moistureZero 1 2 1).size_y = 1 := by
  decide

/-- C9: sampling is a pure function of the seed and the coordinates: two
`NoiseMap`s built from the same seed give identical `sample` and `moisture`
results at identical inputs, for every deterministic noise primitive. -/
theorem noise_map_deterministic (g : Int → ℚ → ℚ → ℚ) (p : ℚ → ℚ → ℚ)
    (s : Int) (nm₁ nm₂ : NoiseMap)
    (h₁ : nm₁ = NoiseMap.new s) (h₂ : nm₂ = NoiseMap.new s)
    (x y : Nat) (mx my : ℚ) :
    nm₁.sample g p x y = nm₂.sample g p x y ∧
    nm₁.moisture g mx my = nm₂.moisture g mx my := by
  subst h₁
  subst h₂
  exact ⟨rfl, rfl⟩

/-- Witness for C9 at seed 1337 (one of the `GOOD_SEEDS`) with a concrete
noise primitive. -/
theorem noise_map_deterministic_witness :
    NoiseMap.new 1337 = NoiseMap.new 1337 ∧
    ((NoiseMap.new 1337).sample (fun s x y => s + x * y) (fun a b => a * b) 3 4 =
      (NoiseMap.new 1337).sample (fun s x y => s + x * y) (fun a b => a * b) 3 4 ∧
    (NoiseMap.new 1337).moisture (fun s x y => s + x * y) 3 4 =
      (NoiseMap.new 1337).moisture (fun s x y => s + x * y) 3 4) :=
  ⟨rfl, noise_map_deterministic (fun s x y => s + x * y) (fun a b => a * b) 1337
    (NoiseMap.new 1337) (NoiseMap.new 1337) rfl rfl 3 4 3 4⟩

/-- The Rust inclusive range `a..=b` over `i32`, as a list (empty when
`b < a`). -/
def intRangeIncl (a b : Int) : List Int :=
  (List.range (b + 1 - a).toNat).map fun i : Nat => a + (i : Int)

theorem mem_intRangeIncl (a b v : Int) : v ∈ intRangeIncl a b ↔ a ≤ v ∧ v ≤ b := by
  unfold intRangeIncl
  simp only [List.mem_map, List.mem_range]
  constructor
  · rintro ⟨i, hi, rfl⟩
    omega
  · intro ⟨h1, h2⟩
    exact ⟨(v - a).toNat, by omega, by omega⟩

/-- Two's complement wrapping of a Rust `i32` arithmetic result (release
mode: overflow wraps). -/
def wrapI32 (n : Int) : Int := (n + 2 ^ 31) % 2 ^ 32 - 2 ^ 31

theorem wrapI32_eq_self {n : Int} (h1 : -2 ^ 31 ≤ n) (h2 : n < 2 ^ 31) :
    wrapI32 n = n := by
  unfold wrapI32
  omega

/-- `GameMap::cells_within_range` (map.rs:245-260): iterate `y` over
`(center.y - range).max(0) ..= (center.y + range).max(0)` and `x` over the
analogous clamped range, keeping `(x, y)` unless
`v.distance_squared(center) > range * range` or `x as usize >= size_x` or
`y as usize >= size_y` (both loop variables are nonnegative, so `as usize`
is `Int.toNat`).  All the `i32` arithmetic — the bound sums `center ± range`,
the square `range * range`, and `IVec2::distance_squared` (componentwise
subtraction, the two squarings and their sum) — wraps on overflow and is
modelled by `wrapI32` at each step. -/
def GameMap.cells_within_range (m : GameMap) (center : Int × Int) (range : Int) :
    List (Int × Int) :=
  (intRangeIncl (max (wrapI32 (center.2 - range)) 0)
      (max (wrapI32 (center.2 + range)) 0)).flatMap fun y =>
    (intRangeIncl (max (wrapI32 (center.1 - range)) 0)
        (max (wrapI32 (center.1 + range)) 0)).filterMap fun x =>
      if wrapI32 (wrapI32 (wrapI32 (x - center.1) * wrapI32 (x - center.1)) +
            wrapI32 (wrapI32 (y - center.2) * wrapI32 (y - center.2))) >
          wrapI32 (range * range)
          ∨ m.size_x ≤ x.toNat ∨ m.size_y ≤ y.toNat then
        none
      else
        some (x, y)

theorem neg_le_and_le_of_sq_add_sq_le (a b r : Int) (hr : 0 ≤ r)
    (h : a * a + b * b ≤ r * r) : -r ≤ a ∧ a ≤ r := by
  have h2 : a ^ 2 ≤ r ^ 2 := by nlinarith [mul_self_nonneg b]
  exact abs_le_of_sq_le_sq' h2 hr

/-- When both difference components are bounded by a radius with
`2·range² < 2³¹`, none of the `distance_squared` steps overflows, so the
wrapped distance equals the exact one. -/
theorem dist_wrap_eq (cx cy r x y : Int) (hr : 0 ≤ r)
    (hrr : 2 * (r * r) < 2 ^ 31)
    (hdx1 : -r ≤ x - cx) (hdx2 : x - cx ≤ r)
    (hdy1 : -r ≤ y - cy) (hdy2 : y - cy ≤ r) :
    wrapI32 (wrapI32 (wrapI32 (x - cx) * wrapI32 (x - cx)) +
        wrapI32 (wrapI32 (y - cy) * wrapI32 (y - cy))) =
      (x - cx) * (x - cx) + (y - cy) * (y - cy) := by
  have hrsmall : r ≤ 2 ^ 15 := by nlinarith
  have h1 : wrapI32 (x - cx) = x - cx := wrapI32_eq_self (by omega) (by omega)
  have h2 : wrapI32 (y - cy) = y - cy := wrapI32_eq_self (by omega) (by omega)
  rw [h1, h2]
  have h3 : wrapI32 ((x - cx) * (x - cx)) = (x - cx) * (x - cx) :=
    wrapI32_eq_self (by nlinarith [mul_self_nonneg (x - cx)]) (by nlinarith)
  have h4 : wrapI32 ((y - cy) * (y - cy)) = (y - cy) * (y - cy) :=
    wrapI32_eq_self (by nlinarith [mul_self_nonneg (y - cy)]) (by nlinarith)
  rw [h3, h4]
  exact wrapI32_eq_self
    (by nlinarith [mul_self_nonneg (x - cx), mul_self_nonneg (y - cy)])
    (by nlinarith)

/-- C8 (counter-evidence for the original claim): at radius 46341 the source
computes `range * range` in `i32`, which wraps to the negative value
-2147479015, so the distance filter rejects every cell: the in-bounds center
`(0, 0)` itself (distance 0 ≤ 46341²) is not enumerated, although radius
46341 satisfies the claim's only premise `range ≥ 0`. -/
theorem cells_within_range_wraps_at_large_radius :
    (0 : Int) ≤ 46341 ∧
    wrapI32 ((46341 : Int) * 46341) = -2147479015 ∧
    (0 ≤ (0 : Int) ∧ (0 : Int) < (mapInert.size_x : Int) ∧
      0 ≤ (0 : Int) ∧ (0 : Int) < (mapInert.size_y : Int) ∧
      ((0 : Int) - 0) * ((0 : Int) - 0) + ((0 : Int) - 0) * ((0 : Int) - 0) ≤
        46341 * 46341) ∧
    ((0, 0) : Int × Int) ∉ mapInert.cells_within_range (0, 0) 46341 ∧
    ¬ (((0, 0) : Int × Int) ∈ mapInert.cells_within_range (0, 0) 46341 ↔
      (0 ≤ (0 : Int) ∧ (0 : Int) < (mapInert.size_x : Int) ∧
        0 ≤ (0 : Int) ∧ (0 : Int) < (mapInert.size_y : Int) ∧
        ((0 : Int) - 0) * ((0 : Int) - 0) + ((0 : Int) - 0) * ((0 : Int) - 0) ≤
          46341 * 46341)) := by
  have hside : (0 ≤ (0 : Int) ∧ (0 : Int) < (mapInert.size_x : Int) ∧
      0 ≤ (0 : Int) ∧ (0 : Int) < (mapInert.size_y : Int) ∧
      ((0 : Int) - 0) * ((0 : Int) - 0) + ((0 : Int) - 0) * ((0 : Int) - 0) ≤
        46341 * 46341) := by
    refine ⟨by decide, by decide, by decide, by decide, by decide⟩
  have hnotmem : ((0, 0) : Int × Int) ∉ mapInert.cells_within_range (0, 0) 46341 := by
    intro hmem
    unfold GameMap.cells_within_range at hmem
    simp only [List.mem_flatMap, List.mem_filterMap, mem_intRangeIncl] at hmem
    obtain ⟨y, _, x, _, hif⟩ := hmem
    by_cases hcond : (wrapI32 (wrapI32 (wrapI32 (x - ((0, 0) : Int × Int).1) *
          wrapI32 (x - ((0, 0) : Int × Int).1)) +
          wrapI32 (wrapI32 (y - ((0, 0) : Int × Int).2) *
          wrapI32 (y - ((0, 0) : Int × Int).2))) >
          wrapI32 ((46341 : Int) * 46341)
        ∨ mapInert.size_x ≤ x.toNat ∨ mapInert.size_y ≤ y.toNat)
    · rw [if_pos hcond] at hif
      cases hif
    · rw [if_neg hcond] at hif
      obtain ⟨rfl, rfl⟩ := Prod.mk.injEq .. ▸ Option.some.inj hif
      push_neg at hcond
      obtain ⟨hd, -, -⟩ := hcond
      have h0 : wrapI32 (wrapI32 (wrapI32 (((0 : Int)) - ((0, 0) : Int × Int).1) *
          wrapI32 (((0 : Int)) - ((0, 0) : Int × Int).1)) +
          wrapI32 (wrapI32 (((0 : Int)) - ((0, 0) : Int × Int).2) *
          wrapI32 (((0 : Int)) - ((0, 0) : Int × Int).2))) = 0 := by decide
      have h1 : wrapI32 ((46341 : Int) * 46341) = -2147479015 := by decide
      rw [h0, h1] at hd
      omega
  refine ⟨by decide, by decide, hside, hnotmem, ?_⟩
  intro hiff
  exact hnotmem (hiff.mpr hside)

/-- C8 (amended): for every `GameMap`, center and radius `range ≥ 0` for
which none of the `i32` computations of `cells_within_range` overflows —
`2·range² < 2³¹`, and `center.x + range` and `center.y + range` each in
`[0, 2³¹)` (so the `.max(0)` clamps of an all-negative bound range cannot
pull in cells arbitrarily far from the center) — the method enumerates
exactly the coordinates `v` with `0 ≤ v.x < size_x`, `0 ≤ v.y < size_y` and
squared Euclidean distance from the center at most `range²`. -/
theorem cells_within_range_mem_no_overflow (m : GameMap) (center : Int × Int)
    (range : Int) (hr : 0 ≤ range) (hrr : 2 * (range * range) < 2 ^ 31)
    (hcx1 : 0 ≤ center.1 + range) (hcx2 : center.1 + range < 2 ^ 31)
    (hcy1 : 0 ≤ center.2 + range) (hcy2 : center.2 + range < 2 ^ 31)
    (v : Int × Int) :
    v ∈ m.cells_within_range center range ↔
      (0 ≤ v.1 ∧ v.1 < (m.size_x : Int) ∧ 0 ≤ v.2 ∧ v.2 < (m.size_y : Int) ∧
        (v.1 - center.1) * (v.1 - center.1) + (v.2 - center.2) * (v.2 - center.2) ≤
          range * range) := by
  obtain ⟨vx, vy⟩ := v
  have hrsmall : range ≤ 2 ^ 15 := by nlinarith
  have hbx1 : wrapI32 (center.1 - range) = center.1 - range :=
    wrapI32_eq_self (by omega) (by omega)
  have hbx2 : wrapI32 (center.1 + range) = center.1 + range :=
    wrapI32_eq_self (by omega) (by omega)
  have hby1 : wrapI32 (center.2 - range) = center.2 - range :=
    wrapI32_eq_self (by omega) (by omega)
  have hby2 : wrapI32 (center.2 + range) = center.2 + range :=
    wrapI32_eq_self (by omega) (by omega)
  have hwr : wrapI32 (range * range) = range * range :=
    wrapI32_eq_self (by nlinarith [mul_self_nonneg range]) (by nlinarith)
  unfold GameMap.cells_within_range
  rw [hbx1, hbx2, hby1, hby2, hwr, max_eq_left hcx1, max_eq_left hcy1]
  simp only [List.mem_flatMap, List.mem_filterMap, mem_intRangeIncl]
  constructor
  · rintro ⟨y, ⟨hy1, hy2⟩, x, ⟨⟨hx1, hx2⟩, hif⟩⟩
    obtain ⟨hxa, hxb⟩ := max_le_iff.mp hx1
    obtain ⟨hya, hyb⟩ := max_le_iff.mp hy1
    have hdw := dist_wrap_eq center.1 center.2 range x y hr hrr
      (by omega) (by omega) (by omega) (by omega)
    rw [hdw] at hif
    by_cases hcond : ((x - center.1) * (x - center.1) + (y - center.2) * (y - center.2) >
        range * range ∨ m.size_x ≤ x.toNat ∨ m.size_y ≤ y.toNat)
    · rw [if_pos hcond] at hif
      cases hif
    · rw [if_neg hcond] at hif
      obtain ⟨rfl, rfl⟩ := Prod.mk.injEq .. ▸ Option.some.inj hif
      push_neg at hcond
      obtain ⟨hd, hsx, hsy⟩ := hcond
      refine ⟨by omega, by omega, by omega, by omega, hd⟩
  · rintro ⟨h1, h2, h3, h4, h5⟩
    have hxr := neg_le_and_le_of_sq_add_sq_le (vx - center.1) (vy - center.2) range hr
      h5
    have hyr := neg_le_and_le_of_sq_add_sq_le (vy - center.2) (vx - center.1) range hr
      (by linarith)
    have hdw := dist_wrap_eq center.1 center.2 range vx vy hr hrr
      (by omega) (by omega) (by omega) (by omega)
    refine ⟨vy, ⟨max_le (by omega) h3, by omega⟩, vx, ⟨⟨max_le (by omega) h1, by omega⟩, ?_⟩⟩
    rw [hdw, if_neg]
    push_neg
    exact ⟨h5, by omega, by omega⟩

/-- Witness for the amended C8 on a concrete map: radius 1 around `(0, 0)`
on `mapInert` yields exactly the claimed membership condition for
`v = (1, 0)`. -/
theorem cells_within_range_mem_no_overflow_witness :
    (0 : Int) ≤ 1 ∧ 2 * ((1 : Int) * 1) < 2 ^ 31 ∧
    (0 : Int) ≤ 0 + 1 ∧ (0 : Int) + 1 < 2 ^ 31 ∧
    (((1, 0) : Int × Int) ∈ mapInert.cells_within_range (0, 0) 1 ↔
      (0 ≤ (1 : Int) ∧ (1 : Int) < (mapInert.size_x : Int) ∧
        0 ≤ (0 : Int) ∧ (0 : Int) < (mapInert.size_y : Int) ∧
        ((1 : Int) - 0) * ((1 : Int) - 0) + ((0 : Int) - 0) * ((0 : Int) - 0) ≤
          1 * 1)) :=
  ⟨by decide, by decide, by decide, by decide,
    cells_within_range_mem_no_overflow mapInert (0, 0) 1 (by decide) (by decide)
      (by decide) (by decide) (by decide) (by decide) (1, 0)⟩
